import Mathlib

/-!
Verification of the atl-climate-viewer data pipeline.

Shallow embedding of the repository sources:
  * fetch_and_update_data.py          (inventory-driven updater, "src main")
  * scripts/fetch_and_update_data.py  (per-file updater, "scripts")
  * remove_duplicate_dates.py         (stand-alone dedup, same algorithm as
                                       scripts remove_duplicate_dates)
  * scripts/add_max_gust_dir.py       (gust-direction backfill)
  * scripts/generate_locations_json.py (manifest generation; no claim touches it)

Modelling conventions:
  * A pandas "Date/Time" cell is modelled by the structure Date (year, month,
    day).  In the src pipeline the cells are "YYYY-MM-DD" strings, whose
    lexicographic string order and equality coincide with the lexicographic
    order on (y, m, d); dateLt below is that order.  In the scripts pipeline
    the cells are parsed to timestamps, whose order and equality are the day
    ordinal dayOrdinal below.
  * A cell that may fail to parse is an Option Date (none = unparsable/NaT).
  * Measurement columns are the fixed schema Meas of eight independently
    nullable numeric fields (the WEATHER_COLUMNS / columns_to_check set).
  * Network responses are an oracle function from request parameters to the
    parsed rows of the response body; issuing a request is recorded in the
    requests field of the result, so "number of outbound requests" is the
    length of that list.
-/

/-- A calendar date as carried in a Date/Time cell. -/
structure Date where
  y : Nat
  m : Nat
  d : Nat
deriving DecidableEq

/-- Lexicographic order on (year, month, day); on the zero-padded
"YYYY-MM-DD" strings of the persisted files this is exactly the string
order used by pandas sort_values on the raw column. -/
def dateLt (a b : Date) : Prop :=
  a.y < b.y ∨ (a.y = b.y ∧ (a.m < b.m ∨ (a.m = b.m ∧ a.d < b.d)))

instance (a b : Date) : Decidable (dateLt a b) :=
  inferInstanceAs (Decidable (_ ∨ _))

/-- Day ordinal of a calendar date (days-from-civil, epoch 0000-03-01
style); faithful model of the pandas timestamp value for years greater
than zero.  Comparison and subtraction of midnight timestamps in the
sources correspond to comparison and subtraction of this ordinal. -/
def dayOrdinal (dt : Date) : Nat :=
  let yAdj := if dt.m ≤ 2 then dt.y - 1 else dt.y
  let mp := if dt.m ≤ 2 then dt.m + 9 else dt.m - 3
  let doy := (153 * mp + 2) / 5 + dt.d - 1
  yAdj * 365 + yAdj / 4 - yAdj / 100 + yAdj / 400 + doy

/-- The eight measurement columns (WEATHER_COLUMNS in fetch_and_update_data.py,
columns_to_check in the scripts), each independently nullable. -/
structure Meas where
  maxTemp : Option Int
  minTemp : Option Int
  meanTemp : Option Int
  totalRain : Option Int
  totalSnow : Option Int
  totalPrecip : Option Int
  snowGrnd : Option Int
  maxGust : Option Int
deriving DecidableEq

/-- A fully missing measurement set (a "no observation" row). -/
def emptyMeas : Meas := ⟨none, none, none, none, none, none, none, none⟩

/-- Count of non-missing measurement fields:
df[real_cols].notna().sum(axis=1), the completeness score. -/
def measScore (ms : Meas) : Nat :=
  [ms.maxTemp, ms.minTemp, ms.meanTemp, ms.totalRain, ms.totalSnow,
   ms.totalPrecip, ms.snowGrnd, ms.maxGust].countP Option.isSome

/-- True when every measurement field is missing:
the dropna(how="all", subset=...) test. -/
def measAllNone (ms : Meas) : Bool :=
  [ms.maxTemp, ms.minTemp, ms.meanTemp, ms.totalRain, ms.totalSnow,
   ms.totalPrecip, ms.snowGrnd, ms.maxGust].all Option.isNone

/-- One row of a per-station dataset with a parsed date: the Date/Time
cell, the measurement columns, and the denormalized station columns. -/
structure SRec where
  date : Date
  meas : Meas
  stationName : String
  stationId : Int
deriving DecidableEq

/-- Completeness score of a row. -/
def score (r : SRec) : Nat := measScore r.meas

/-- One raw row of a per-station CSV before date parsing: the Date/Time
cell is kept as its parse result (none = unparsable). -/
structure ERec where
  date : Option Date
  meas : Meas
  stationName : String
  stationId : Int
deriving DecidableEq

/-- Reinsert a parsed row into raw-file form. -/
def toERec (r : SRec) : ERec := ⟨some r.date, r.meas, r.stationName, r.stationId⟩

/-- Parse every Date/Time cell of a file, failing if any cell is
unparsable: pd.to_datetime without errors="coerce" raises on the first
bad cell. -/
def parseRows : List ERec → Option (List SRec)
  | [] => some []
  | e :: es =>
    match e.date, parseRows es with
    | some dt, some tl => some (⟨dt, e.meas, e.stationName, e.stationId⟩ :: tl)
    | _, _ => none

/-- Query parameters of one outbound GET against the bulk-data endpoint:
format=csv is fixed and omitted; timeframe=2 selects daily data. -/
structure Params where
  stationID : Int
  year : Nat
  month : Nat
  timeframe : Nat
deriving DecidableEq

/- ----------------------------------------------------------------------
src: fetch_and_update_data.py, remove_duplicates (lines 47-55).
Sort by (Date/Time ascending, non_null_score descending) - a multi-column
pandas sort_values, which is a stable lexsort - then drop_duplicates on
Date/Time keeping the first row.
---------------------------------------------------------------------- -/

/-- The sort key of remove_duplicates: Date/Time ascending (string order
of the YYYY-MM-DD cells), then non_null_score descending. -/
def rdLE (a b : SRec) : Prop :=
  dateLt a.date b.date ∨ (a.date = b.date ∧ score b ≤ score a)

instance : DecidableRel rdLE := fun a b =>
  inferInstanceAs (Decidable (dateLt a.date b.date ∨ (a.date = b.date ∧ score b ≤ score a)))

/-- drop_duplicates(subset=["Date/Time"], keep="first"): keep each row
whose date has not been seen before it. -/
def dedupByDate : List SRec → List Date → List SRec
  | [], _ => []
  | r :: rest, seen =>
    if r.date ∈ seen then dedupByDate rest seen
    else r :: dedupByDate rest (r.date :: seen)

/-- remove_duplicates of fetch_and_update_data.py: empty in, empty out;
otherwise score, stable-sort by (date asc, score desc), keep the first
row of each date.  (Adding and dropping the non_null_score helper column
is implicit in scoring.) -/
def remove_duplicates (df : List SRec) : List SRec :=
  if df = [] then df
  else dedupByDate (List.insertionSort rdLE df) []

/-- The Row Reconciler of the spec: src main concatenates the existing
rows with the fetched rows (lines 141-144) and applies remove_duplicates
(line 145). -/
def reconcile (existing incoming : List SRec) : List SRec :=
  remove_duplicates (existing ++ incoming)

/- ----------------------------------------------------------------------
Order instances for dateLt / rdLE, used by the sorting lemmas below.
---------------------------------------------------------------------- -/

instance : IsIrrefl Date dateLt := by
  constructor
  intro a
  rcases a with ⟨ay, am, ad⟩
  simp only [dateLt]
  omega

instance : IsTrans Date dateLt := by
  constructor
  intro a b c h1 h2
  rcases a with ⟨ay, am, ad⟩
  rcases b with ⟨yb, mb, db⟩
  rcases c with ⟨cy, cm, cd⟩
  simp only [dateLt] at h1 h2 ⊢
  omega

instance : IsTrichotomous Date dateLt := by
  constructor
  intro a b
  rcases a with ⟨ay, am, ad⟩
  rcases b with ⟨yb, mb, db⟩
  simp only [dateLt, Date.mk.injEq]
  omega

instance : IsTotal SRec rdLE := by
  constructor
  intro a b
  rcases trichotomous_of dateLt a.date b.date with h | h | h
  · exact Or.inl (Or.inl h)
  · rcases Nat.le_total (score b) (score a) with hs | hs
    · exact Or.inl (Or.inr ⟨h, hs⟩)
    · exact Or.inr (Or.inr ⟨h.symm, hs⟩)
  · exact Or.inr (Or.inl h)

instance : IsTrans SRec rdLE := by
  constructor
  intro a b c hab hbc
  rcases hab with h1 | ⟨e1, s1⟩
  · rcases hbc with h2 | ⟨e2, s2⟩
    · exact Or.inl (IsTrans.trans _ _ _ h1 h2)
    · exact Or.inl (e2 ▸ h1)
  · rcases hbc with h2 | ⟨e2, s2⟩
    · exact Or.inl (e1 ▸ h2)
    · exact Or.inr ⟨e1.trans e2, Nat.le_trans s2 s1⟩

/- ----------------------------------------------------------------------
custom_title_case (fetch_and_update_data.py lines 23-29 and
scripts/fetch_and_update_data.py lines 21-25, identical bodies):
re.sub over the pattern (\s|^)([a-z])|(')([a-z]) that uppercases a lowercase
letter at the start of the text or after a whitespace character, and leaves
a lowercase letter after an apostrophe unchanged (the match still consumes
both characters).  The scan below mirrors the non-overlapping left-to-right
regex scan.
---------------------------------------------------------------------- -/

/-- Python re \s on the ASCII range: space, tab, newline, CR, FF, VT. -/
def isPySpace (c : Char) : Bool :=
  c == ' ' || c == '\t' || c == '\n' || c == '\r' || c == '\x0b' || c == '\x0c'

/-- The regex class [a-z]. -/
def isLowerAZ (c : Char) : Bool :=
  97 ≤ c.toNat && c.toNat ≤ 122

/-- ASCII uppercase of a lowercase letter: the .upper() in the replacement. -/
def upChar (c : Char) : Char := Char.ofNat (c.toNat - 32)

/-- The apostrophe character. -/
def apos : Char := Char.ofNat 39

/-- Regex scan away from the start anchor: a two-character match
(whitespace+lowercase, uppercased; or apostrophe+lowercase, unchanged)
consumes both characters, otherwise advance one character. -/
def ctcGo : List Char → List Char
  | [] => []
  | [c] => [c]
  | c1 :: c2 :: rest =>
    if isPySpace c1 && isLowerAZ c2 then c1 :: upChar c2 :: ctcGo rest
    else if c1 == apos && isLowerAZ c2 then c1 :: c2 :: ctcGo rest
    else c1 :: ctcGo (c2 :: rest)

/-- Regex scan including the ^ anchor: a lowercase first character is a
one-character match (uppercased), after which scanning resumes at the
second character. -/
def ctcTop : List Char → List Char
  | [] => []
  | c :: rest => if isLowerAZ c then upChar c :: ctcGo rest else ctcGo (c :: rest)

/-- custom_title_case on a string. -/
def customTitleCase (s : String) : String := String.mk (ctcTop s.data)

/- ----------------------------------------------------------------------
Inventory row handling, fetch_and_update_data.py main, lines 80-98.
A missing cell read by pandas with dtype=str is NaN; str(NaN) is the
nonempty string "nan", which str.strip leaves unchanged.
---------------------------------------------------------------------- -/

/-- str(cell) for a cell that may be missing: str of NaN is "nan". -/
def strOfCell : Option String → String
  | none => "nan"
  | some s => s

/-- Python str.strip(): remove leading and trailing whitespace. -/
def stripStr (s : String) : String :=
  String.mk (((s.data.dropWhile isPySpace).reverse.dropWhile isPySpace).reverse)

/-- Outcome of the per-row guards of main before any directory creation,
network activity or file write. -/
inductive RowAction where
  | notInTargets
  | skipped
  | processed
deriving DecidableEq

/-- The guards of main lines 80-91: drop rows whose title-cased name is
not a target label; then skip when the stripped station id is empty or
first_year exceeds last_year; otherwise the row proceeds to directory
creation and fetching. -/
def processInventoryRow (labelSet : List String) (nameCell : Option String)
    (idCell : Option String) (firstYear lastYear : Int) : RowAction :=
  let label := customTitleCase (stripStr (strOfCell nameCell))
  if label ∈ labelSet then
    let stationId := stripStr (strOfCell idCell)
    if stationId = "" ∨ firstYear > lastYear then .skipped
    else .processed
  else .notInTargets

/- ----------------------------------------------------------------------
Fetchers.
---------------------------------------------------------------------- -/

/-- A raw response row of the src fetcher: Date/Time as parsed with
errors="coerce" (none = NaT, dropped), plus the recognized measurement
columns; unrecognized columns are already dropped by the column filter. -/
structure RawRec where
  date : Option Date
  meas : Meas
deriving DecidableEq

/-- A parsed response row of the scripts fetcher (a response whose dates
fail to parse makes that month raise inside its try block and contribute
nothing; such months are modelled as empty responses). -/
structure RRec where
  date : Date
  meas : Meas
deriving DecidableEq

/-- Result of a fetcher call: the outbound requests it issued, in order,
and the records it returned. -/
structure FetchOut where
  requests : List Params
  records : List SRec
deriving DecidableEq

/-- fetch_daily_csv of fetch_and_update_data.py (lines 31-45): one GET
with stationID, Year, Month, timeframe=2; keep recognized columns, parse
dates with errors="coerce", inject station name and id, drop rows whose
date failed to parse.  No filtering to the requested month. -/
def fetch_daily_csv (oracle : Params → List RawRec) (stationId : Int)
    (stationName : String) (year month : Nat) : FetchOut :=
  let p : Params := ⟨stationId, year, month, 2⟩
  { requests := [p]
    records := (oracle p).filterMap (fun r =>
      r.date.map (fun dt => (⟨dt, r.meas, stationName, stationId⟩ : SRec))) }

/-- The month loop of fetch_daily_data (scripts lines 32-34):
for month in range(1, 12), breaking once month exceeds the current month
in the current year.  Since months ascend, the break is a takeWhile. -/
def monthsUpTo (year : Nat) (today : Date) : List Nat :=
  (List.range' 1 11).takeWhile (fun mo => !(year == today.y && decide (today.m < mo)))

/-- fetch_daily_data of scripts/fetch_and_update_data.py (lines 27-88):
despite being called per (year, month), it ignores its month argument and
loops over months 1..11 of the year (stopping at the current month in the
current year), issuing one request per month and keeping only the
response rows whose date falls in that (year, month). -/
def fetch_daily_data (oracle : Params → List RRec) (stationId : Int)
    (stationName : String) (year : Nat) (_currentMonthArg : Nat)
    (today : Date) : FetchOut :=
  let ms := monthsUpTo year today
  { requests := ms.map (fun mo => ⟨stationId, year, mo, 2⟩)
    records := ms.flatMap (fun mo =>
      ((oracle ⟨stationId, year, mo, 2⟩).filter
        (fun r => r.date.m == mo && r.date.y == year)).map
        (fun r => ⟨r.date, r.meas, stationName, stationId⟩)) }

/- ----------------------------------------------------------------------
scripts: months_to_fetch (scripts/fetch_and_update_data.py lines 161-181).
---------------------------------------------------------------------- -/

/-- The while loop of lines 174-179, appending (fetch_year, fetch_month)
and stepping to the next month until the current month is passed.  The
loop always terminates; the fuel supplied by months_to_fetch exceeds the
number of iterations for every input. -/
def monthsLoopF : Nat → Nat → Nat → Nat → Nat → List (Nat × Nat)
  | 0, _, _, _, _ => []
  | fuel + 1, fy, fm, cy, cm =>
    if fy < cy ∨ (fy = cy ∧ fm ≤ cm) then
      (fy, fm) ::
        (if 12 < fm + 1 then monthsLoopF fuel (fy + 1) 1 cy cm
         else monthsLoopF fuel fy (fm + 1) cy cm)
    else []

/-- months_to_fetch: if the most recent date is in the current month,
just that month; otherwise every month from (most_recent_year,
most_recent_month) through (current_year, current_month). -/
def months_to_fetch (ry rm cy cm : Nat) : List (Nat × Nat) :=
  if ry = cy ∧ rm = cm then [(cy, cm)]
  else monthsLoopF ((cy + 1 - ry) * 12 + 13) ry rm cy cm

/- ----------------------------------------------------------------------
scripts: remove_duplicate_dates (scripts/fetch_and_update_data.py lines
90-109), the same algorithm as remove_duplicate_dates_single_file of
remove_duplicate_dates.py (lines 4-23): parse dates, sort by date, group
by date, and keep in each group the row at idxmax of the notnull count
over columns_to_check (the first row of the group attaining the maximal
count).  df.loc with the selected labels emits one row per group in
ascending key order.  The embedding works on parsed rows; pandas leaves
the order of equal-date rows after its single-column quicksort
unspecified, and the stable sort below is one admissible order (none of
the properties proved about this function depend on it).
---------------------------------------------------------------------- -/

/-- Group key of a parsed row: its timestamp. -/
def sRecKey (r : SRec) : Nat := dayOrdinal r.date

/-- Sort order of the scripts dedup: timestamp ascending. -/
def srLE (a b : SRec) : Prop := sRecKey a ≤ sRecKey b

instance : DecidableRel srLE := fun a b =>
  inferInstanceAs (Decidable (sRecKey a ≤ sRecKey b))

/-- Series.idxmax over the notnull counts of a group: the first row
attaining the maximal score. -/
def firstMaxByScore : List SRec → Option SRec
  | [] => none
  | r :: rest =>
    match firstMaxByScore rest with
    | none => some r
    | some b => if score r < score b then some b else some r

/-- The dedup computation of remove_duplicate_dates once the dates have
parsed (its try/except leaves the file untouched when parsing raises,
which is not part of this function). -/
def remove_duplicate_dates (rows : List SRec) : List SRec :=
  let s := List.insertionSort srLE rows
  ((s.map sRecKey).dedup).filterMap
    (fun k => firstMaxByScore (s.filter (fun r => sRecKey r == k)))

/- ----------------------------------------------------------------------
scripts: update_csv_file (scripts/fetch_and_update_data.py lines 112-224).
---------------------------------------------------------------------- -/

/-- Reported outcome of one update_csv_file run, as printed. -/
inductive UStatus where
  | skippedEmpty
  | errorMalformed (path : String)
  | upToDate
  | noNewData
  | noNewAfterFilter
  | updated (n : Nat)
deriving DecidableEq

/-- Observable effect of one update_csv_file run: the outbound requests
issued, the file content written back (none = file untouched), and the
reported outcome. -/
structure UpdateOut where
  requests : List Params
  written : Option (List ERec)
  status : UStatus
deriving DecidableEq

/-- Placeholder for iloc[-1] on a list already known nonempty. -/
def defaultERec : ERec := ⟨none, emptyMeas, "", 0⟩

/-- Series.max over parsed dates (timestamp order); the [] case never
arises at the call sites, which guard on nonemptiness. -/
def maxDateList : List Date → Date
  | [] => ⟨0, 0, 0⟩
  | d :: ds => ds.foldl (fun a b => if dayOrdinal a < dayOrdinal b then b else a) d

/-- Body of update_csv_file after the file has been read, found nonempty
and its dates parsed (lines 135-221): take the station id and name from
the last row (the Station ID cleaning of lines 124-133 only rewrites a
trailing ".0" and never escapes its own try block, so it is modelled as
the identity); compute the most recent date; return upToDate when it is
on or after yesterday midnight; otherwise fetch every month in
months_to_fetch through fetch_daily_data, drop all-empty rows, drop rows
whose date is already present, and if any survive write existing + new
followed by remove_duplicate_dates over the written file. -/
def updateBody (oracle : Params → List RRec) (today : Date)
    (existing : List ERec) (srows : List SRec) : UpdateOut :=
  let sid := (existing.getLastD defaultERec).stationId
  let name := (existing.getLastD defaultERec).stationName
  let mostRecent := maxDateList (srows.map (fun r => r.date))
  if dayOrdinal today ≤ dayOrdinal mostRecent + 1 then ⟨[], none, .upToDate⟩
  else
    let months := months_to_fetch mostRecent.y mostRecent.m today.y today.m
    let fos := months.map (fun ym => fetch_daily_data oracle sid name ym.1 ym.2 today)
    let reqs := (fos.map FetchOut.requests).flatten
    let allNew := (fos.map FetchOut.records).flatten
    if allNew = [] then ⟨reqs, none, .noNewData⟩
    else
      let nf := allNew.filter (fun r => !(measAllNone r.meas))
      let existingKeys := srows.map sRecKey
      let nf2 := nf.filter (fun r => !(existingKeys.contains (sRecKey r)))
      if nf2 = [] then ⟨reqs, none, .noNewAfterFilter⟩
      else
        ⟨reqs, some ((remove_duplicate_dates (srows ++ nf2)).map toERec),
         .updated nf2.length⟩

/-- update_csv_file: skip an empty file; abort with an error naming the
file when a Date/Time cell does not parse (the except of lines 223-224,
reached from pd.to_datetime at line 140); otherwise run the body. -/
def update_csv_file (oracle : Params → List RRec) (today : Date)
    (path : String) (existing : List ERec) : UpdateOut :=
  if existing = [] then ⟨[], none, .skippedEmpty⟩
  else
    match parseRows existing with
    | none => ⟨[], none, .errorMalformed path⟩
    | some srows => updateBody oracle today existing srows

/-- The batch loop of scripts main (lines 253-260): update_csv_file over
every discovered file; each file is handled by its own wrapped task, so
the outcome for one file is the same function of that file alone. -/
def batch_update (oracle : Params → List RRec) (today : Date)
    (files : List (String × List ERec)) : List UpdateOut :=
  files.map (fun f => update_csv_file oracle today f.1 f.2)

/- ----------------------------------------------------------------------
src main incremental logic (fetch_and_update_data.py lines 102-153).
---------------------------------------------------------------------- -/

/-- Gregorian leap year. -/
def isLeap (yr : Nat) : Bool := yr % 4 == 0 && (yr % 100 != 0 || yr % 400 == 0)

/-- Days in a month of the Gregorian calendar. -/
def daysInMonth (yr mo : Nat) : Nat :=
  if mo = 2 then (if isLeap yr then 29 else 28)
  else if mo = 4 ∨ mo = 6 ∨ mo = 9 ∨ mo = 11 then 30
  else 31

/-- last_dt + timedelta(days=1): the next calendar day. -/
def nextDay (dt : Date) : Date :=
  if dt.d < daysInMonth dt.y dt.m then ⟨dt.y, dt.m, dt.d + 1⟩
  else if dt.m < 12 then ⟨dt.y, dt.m + 1, 1⟩
  else ⟨dt.y + 1, 1, 1⟩

/-- The nested month loop of lines 123-126: for year in
range(from_year, last_fetch_year + 1), months m_start..m_end where
m_start is from_month in the first year and m_end is the current month
in the current year. -/
def srcMonthRange (fromY fromM lastFetchY nowY nowM : Nat) : List (Nat × Nat) :=
  (List.range' fromY (lastFetchY + 1 - fromY)).flatMap (fun yr =>
    let mStart := if yr = fromY then fromM else 1
    let mEnd := if yr = nowY then nowM else 12
    (List.range' mStart (mEnd + 1 - mStart)).map (fun mo => (yr, mo)))

/-- Observable effect of one station iteration of src main: the months
attempted, the requests issued, and the file content written (none = no
write). -/
structure SrcOut where
  months : List (Nat × Nat)
  requests : List Params
  written : Option (List SRec)
deriving DecidableEq

/-- One station iteration of src main after the row guards (lines
102-153).  readResult is the outcome of reading the persisted file:
none when the file does not exist, is empty, lacks a Date/Time column,
has no parseable date, or reading it raised (the except of lines
118-119 prints "Failed to read existing file, will fetch all." and falls
through) - in every one of those cases from_year/from_month stay at
(first_year, 1) and existing stays None; some rows when the file was
read and its max date parsed, in which case fetching starts at the day
after the max date and the rows are kept for merging.  Each month is
fetched with fetch_daily_csv; empty months contribute nothing; if any
record arrived, all-empty rows are dropped, existing rows are prepended,
remove_duplicates is applied and the file is (re)written. -/
def src_station_update (oracle : Params → List RawRec) (now : Date)
    (firstYear lastYear : Nat) (stationId : Int) (label : String)
    (readResult : Option (List SRec)) : SrcOut :=
  let fromExisting : Nat × Nat × Option (List SRec) :=
    match readResult with
    | none => (firstYear, 1, none)
    | some [] => (firstYear, 1, none)
    | some (r0 :: rs) =>
      let lastDt := maxDateList ((r0 :: rs).map (fun r => r.date))
      let nd := nextDay lastDt
      (nd.y, nd.m, some (r0 :: rs))
  let fromY := fromExisting.1
  let fromM := fromExisting.2.1
  let existing := fromExisting.2.2
  let lastFetchY := min lastYear now.y
  let months := srcMonthRange fromY fromM lastFetchY now.y now.m
  let fetches := months.map (fun ym => fetch_daily_csv oracle stationId label ym.1 ym.2)
  let requests := (fetches.map FetchOut.requests).flatten
  let allRecs := (fetches.map FetchOut.records).flatten
  if allRecs = [] then ⟨months, requests, none⟩
  else
    let fetched := allRecs.filter (fun r => !(measAllNone r.meas))
    let combined :=
      match existing with
      | some e => e ++ fetched
      | none => fetched
    ⟨months, requests, some (remove_duplicates combined)⟩

/- ----------------------------------------------------------------------
scripts/add_max_gust_dir.py: gust-direction backfill.
---------------------------------------------------------------------- -/

/-- A row of a station CSV as seen by the backfill: the three columns it
requires and touches (Date/Time parsed with errors="coerce", Station ID,
Dir of Max Gust (10s deg)); the remaining columns pass through untouched
and are omitted from the model. -/
structure GRec where
  date : Option Date
  stationId : Option Int
  gustDir : Option Int
deriving DecidableEq

/-- fetch_single_day_data (lines 7-59) collapsed to its observable
result: for a station and a day, the Dir of Max Gust value of the row
the endpoint returns for exactly that day, or none when the request
fails, the response has no row for that day, or the value is null (the
pd.notna guard of line 120). -/
def GustOracle : Type := Int → Date → Option Int

/-- Write a fetched direction into the gust column of row j. -/
def setGust (rows : List GRec) (j : Nat) (v : Int) : List GRec :=
  match rows.get? j with
  | some r => rows.set j { r with gustDir := some v }
  | none => rows

/-- One iteration of the backfill loop (lines 97-135) for one snapshot
row with a missing direction: skip when its date or station id is
missing; otherwise fetch that day and, when a value comes back, write it
into the first row of the frame whose Date/Time equals the fetched date
(lines 124-128). -/
def backfillStep (oracle : GustOracle) (df : List GRec) (snap : GRec) : List GRec :=
  match snap.date with
  | none => df
  | some dt =>
    match snap.stationId with
    | none => df
    | some sid =>
      match oracle sid dt with
      | none => df
      | some v =>
        match df.findIdx? (fun r => r.date == some dt) with
        | some j => setGust df j v
        | none => df

/-- The backfill loop: the rows iterated are the snapshot of rows whose
direction was missing before the loop started (df[missing_mask] is
evaluated once), while writes land in the evolving frame. -/
def backfillAll (oracle : GustOracle) (rows : List GRec) : List GRec :=
  (rows.filter (fun r => r.gustDir.isNone)).foldl (backfillStep oracle) rows

/-- Multiply every present direction by 10 (lines 138-140); the
to_numeric conversion is the identity on the numeric model. -/
def scaleGust (rows : List GRec) : List GRec :=
  rows.map (fun r => { r with gustDir := r.gustDir.map (fun v => v * 10) })

/-- One run of fill_missing_gust_direction over one file that has the
three required columns: when no direction is missing the file is left
untouched (the continue of lines 90-92 fires before the scaling);
otherwise the missing rows are backfilled and the whole column is scaled
by 10 before saving. -/
def fill_missing_gust_direction (oracle : GustOracle) (rows : List GRec) : List GRec :=
  if rows.all (fun r => r.gustDir.isSome) then rows
  else scaleGust (backfillAll oracle rows)

/-- A row the backfill can never fill: its direction is missing and
either its date or station id is missing, or the endpoint has no value
for its day. -/
def unfillable (oracle : GustOracle) (r : GRec) : Prop :=
  r.gustDir = none ∧
    match r.date, r.stationId with
    | some dt, some sid => oracle sid dt = none
    | _, _ => True

/- ======================================================================
Theorems.
====================================================================== -/

/- Stability and per-date behaviour of the remove_duplicates sort. -/

theorem orderedInsert_of_forall_rdLE (x : SRec) (m : List SRec)
    (h : ∀ c ∈ m, rdLE x c) : List.orderedInsert rdLE x m = x :: m := by
  cases m with
  | nil => rfl
  | cons c cs =>
    simp only [List.orderedInsert]
    rw [if_pos (h c (List.mem_cons_self c cs))]

theorem orderedInsert_filter_pos (p : SRec → Bool) (x : SRec) (l : List SRec)
    (hs : l.Sorted rdLE) (hx : p x = true) :
    (List.orderedInsert rdLE x l).filter p
      = List.orderedInsert rdLE x (l.filter p) := by
  induction l with
  | nil => simp [List.filter, hx]
  | cons b t ih =>
    by_cases hxb : rdLE x b
    · rw [List.orderedInsert, if_pos hxb]
      have hall : ∀ c ∈ (b :: t).filter p, rdLE x c := by
        intro c hc
        have hcbt : c ∈ b :: t := (List.mem_filter.mp hc).1
        rcases List.mem_cons.mp hcbt with rfl | hct
        · exact hxb
        · exact IsTrans.trans _ _ _ hxb (List.rel_of_sorted_cons hs c hct)
      rw [orderedInsert_of_forall_rdLE x _ hall]
      simp [List.filter, hx]
    · rw [List.orderedInsert, if_neg hxb]
      have ht : t.Sorted rdLE := hs.of_cons
      by_cases hpb : p b = true
      · simp only [List.filter, hpb, List.orderedInsert, if_neg hxb]
        exact congrArg _ (ih ht)
      · have hpb2 : p b = false := by
          cases hb2 : p b
          · rfl
          · exact absurd hb2 hpb
        rw [List.filter_cons_of_neg (by simp [hpb2]),
          List.filter_cons_of_neg (by simp [hpb2]), ih ht]

theorem orderedInsert_filter_neg (p : SRec → Bool) (x : SRec) (l : List SRec)
    (hx : p x = false) :
    (List.orderedInsert rdLE x l).filter p = l.filter p := by
  induction l with
  | nil => simp [List.filter, hx]
  | cons b t ih =>
    by_cases hxb : rdLE x b
    · rw [List.orderedInsert, if_pos hxb]
      simp [List.filter, hx]
    · rw [List.orderedInsert, if_neg hxb]
      by_cases hpb : p b = true
      · rw [List.filter_cons_of_pos hpb, List.filter_cons_of_pos hpb, ih]
      · have hpb2 : p b = false := by
          cases hb2 : p b
          · rfl
          · exact absurd hb2 hpb
        rw [List.filter_cons_of_neg (by simp [hpb2]),
          List.filter_cons_of_neg (by simp [hpb2]), ih]

theorem insertionSort_filter (p : SRec → Bool) (l : List SRec) :
    (List.insertionSort rdLE l).filter p
      = List.insertionSort rdLE (l.filter p) := by
  induction l with
  | nil => rfl
  | cons x t ih =>
    rw [List.insertionSort]
    by_cases hx : p x = true
    · rw [orderedInsert_filter_pos p x _ (List.sorted_insertionSort rdLE t) hx, ih,
        List.filter_cons_of_pos hx, List.insertionSort]
    · have hx2 : p x = false := by
        cases hb2 : p x
        · rfl
        · exact absurd hb2 hx
      rw [orderedInsert_filter_neg p x _ hx2, ih,
        List.filter_cons_of_neg (by simp [hx2])]

/- Behaviour of the keep-first date dedup. -/

theorem dedupByDate_sublist : ∀ (l : List SRec) (seen : List Date),
    (dedupByDate l seen).Sublist l
  | [], _ => List.Sublist.refl _
  | r :: rest, seen => by
    rw [dedupByDate]
    by_cases h : r.date ∈ seen
    · rw [if_pos h]
      exact (dedupByDate_sublist rest seen).cons r
    · rw [if_neg h]
      exact (dedupByDate_sublist rest (r.date :: seen)).cons₂ r

theorem dedupByDate_dates_nodup : ∀ (l : List SRec) (seen : List Date),
    ((dedupByDate l seen).map (fun r => r.date)).Nodup ∧
      ∀ d ∈ (dedupByDate l seen).map (fun r => r.date), d ∉ seen
  | [], _ => by simp [dedupByDate]
  | r :: rest, seen => by
    rw [dedupByDate]
    by_cases h : r.date ∈ seen
    · rw [if_pos h]
      exact dedupByDate_dates_nodup rest seen
    · rw [if_neg h]
      have ih := dedupByDate_dates_nodup rest (r.date :: seen)
      refine ⟨List.nodup_cons.mpr ⟨?_, ih.1⟩, ?_⟩
      · intro hmem
        exact (ih.2 _ hmem) (List.mem_cons_self _ _)
      · intro d hd
        rcases List.mem_cons.mp hd with rfl | hd2
        · exact h
        · intro hds
          exact (ih.2 d hd2) (List.mem_cons_of_mem _ hds)

theorem dedupByDate_eq_self : ∀ (l : List SRec) (seen : List Date),
    ((l.map (fun r => r.date)).Nodup) → (∀ r ∈ l, r.date ∉ seen) →
    dedupByDate l seen = l
  | [], _, _, _ => rfl
  | r :: rest, seen, hnd, hns => by
    rw [dedupByDate, if_neg (hns r (List.mem_cons_self r rest))]
    rw [List.map_cons] at hnd
    have hnd2 := List.nodup_cons.mp hnd
    refine congrArg _ (dedupByDate_eq_self rest (r.date :: seen) hnd2.2 ?_)
    intro x hx
    intro hmem
    rcases List.mem_cons.mp hmem with he | hs
    · exact hnd2.1 (he ▸ List.mem_map_of_mem (fun r => r.date) hx)
    · exact hns x (List.mem_cons_of_mem r hx) hs

theorem dedupByDate_filter_take_one :
    ∀ (l : List SRec) (seen : List Date) (d : Date),
    (dedupByDate l seen).filter (fun r => r.date == d)
      = if d ∈ seen then [] else (l.filter (fun r => r.date == d)).take 1
  | [], seen, d => by
    by_cases h : d ∈ seen
    · simp [dedupByDate, h]
    · simp [dedupByDate, h]
  | r :: rest, seen, d => by
    rw [dedupByDate]
    by_cases hrd : r.date = d
    · subst hrd
      by_cases hseen : r.date ∈ seen
      · rw [if_pos hseen, dedupByDate_filter_take_one rest seen r.date,
          if_pos hseen, if_pos hseen]
      · rw [if_neg hseen, List.filter_cons_of_pos (by simp),
          List.filter_cons_of_pos (by simp),
          dedupByDate_filter_take_one rest (r.date :: seen) r.date,
          if_pos (List.mem_cons_self r.date seen), if_neg hseen]
        rfl
    · have hfr : ((fun x => x.date == d) r) = false := by
        simp [hrd]
      by_cases hseen : r.date ∈ seen
      · rw [if_pos hseen, List.filter_cons_of_neg (by simp [hrd]),
          dedupByDate_filter_take_one rest seen d]
      · rw [if_neg hseen, List.filter_cons_of_neg (by simp [hrd]),
          List.filter_cons_of_neg (by simp [hrd]),
          dedupByDate_filter_take_one rest (r.date :: seen) d]
        by_cases hds : d ∈ seen
        · rw [if_pos hds, if_pos (List.mem_cons_of_mem _ hds)]
        · rw [if_neg hds, if_neg ?_]
          intro hm
          rcases List.mem_cons.mp hm with he | hs2
          · exact hrd he.symm
          · exact hds hs2

/- Shape of the remove_duplicates output. -/

theorem remove_duplicates_dates_nodup (df : List SRec) :
    ((remove_duplicates df).map (fun r => r.date)).Nodup := by
  rw [remove_duplicates]
  by_cases h : df = []
  · rw [if_pos h, h]
    simp
  · rw [if_neg h]
    exact (dedupByDate_dates_nodup _ []).1

theorem remove_duplicates_sorted (df : List SRec) :
    (remove_duplicates df).Sorted rdLE := by
  rw [remove_duplicates]
  by_cases h : df = []
  · rw [if_pos h, h]
    exact List.sorted_nil
  · rw [if_neg h]
    exact (List.sorted_insertionSort rdLE df).sublist (dedupByDate_sublist _ [])

theorem remove_duplicates_idem (df : List SRec) :
    remove_duplicates (remove_duplicates df) = remove_duplicates df := by
  by_cases h0 : remove_duplicates df = []
  · rw [h0, remove_duplicates, if_pos rfl]
  · rw [remove_duplicates, if_neg h0,
      (remove_duplicates_sorted df).insertionSort_eq]
    exact dedupByDate_eq_self _ [] (remove_duplicates_dates_nodup df)
      (fun r _ => List.not_mem_nil r.date)

theorem dateLt_self_false (a : Date) : ¬ dateLt a a := by
  rcases a with ⟨ay, am, ad⟩
  simp only [dateLt]
  omega

/-- C1: for every dataset handed to remove_duplicates in which exactly two
records r1 (earlier) and r2 (later) carry the date d, the output keeps for
d exactly the record with the strictly greater count of non-missing
measurement fields, and on a tie the earlier record r1; the stable sort by
(date ascending, completeness descending) makes the first row of the date
block the kept one. -/
theorem dedup_richer_record_wins (df : List SRec) (d : Date) (r1 r2 : SRec)
    (h : df.filter (fun r => r.date == d) = [r1, r2]) :
    (score r2 < score r1 →
      (remove_duplicates df).filter (fun r => r.date == d) = [r1]) ∧
    (score r1 = score r2 →
      (remove_duplicates df).filter (fun r => r.date == d) = [r1]) ∧
    (score r1 < score r2 →
      (remove_duplicates df).filter (fun r => r.date == d) = [r2]) := by
  have hdf : df ≠ [] := by
    intro he
    rw [he] at h
    exact absurd h (by simp)
  have hd1 : r1.date = d := by
    have hm : r1 ∈ df.filter (fun r => r.date == d) := by
      rw [h]
      exact List.mem_cons_self _ _
    simpa using (List.mem_filter.mp hm).2
  have hd2 : r2.date = d := by
    have hm : r2 ∈ df.filter (fun r => r.date == d) := by
      rw [h]
      exact List.mem_cons_of_mem _ (List.mem_cons_self _ _)
    simpa using (List.mem_filter.mp hm).2
  have key : (remove_duplicates df).filter (fun r => r.date == d)
      = (List.insertionSort rdLE [r1, r2]).take 1 := by
    rw [remove_duplicates, if_neg hdf,
      dedupByDate_filter_take_one _ [] d, if_neg (List.not_mem_nil d),
      insertionSort_filter, h]
  have hsort : List.insertionSort rdLE [r1, r2]
      = if rdLE r1 r2 then [r1, r2] else [r2, r1] := by
    simp only [List.insertionSort, List.orderedInsert]
  have hrd12 : rdLE r1 r2 ↔ score r2 ≤ score r1 := by
    constructor
    · intro hle
      rcases hle with hlt | ⟨_, hs⟩
      · rw [hd1, hd2] at hlt
        exact absurd hlt (dateLt_self_false d)
      · exact hs
    · intro hs
      exact Or.inr ⟨hd1.trans hd2.symm, hs⟩
  refine ⟨?_, ?_, ?_⟩
  · intro hlt
    rw [key, hsort, if_pos (hrd12.mpr (Nat.le_of_lt hlt))]
    rfl
  · intro heq
    rw [key, hsort, if_pos (hrd12.mpr (Nat.le_of_eq heq.symm))]
    rfl
  · intro hlt
    rw [key, hsort, if_neg (fun hc => absurd (hrd12.mp hc) (by omega))]
    rfl

/-- Concrete instance of dedup_richer_record_wins: two same-date rows,
the first richer; the output keeps exactly the first. -/
theorem dedup_richer_record_wins_witness :
    (remove_duplicates
        [⟨⟨2024, 1, 1⟩, ⟨some 1, some 2, none, none, none, none, none, none⟩, "A", 1⟩,
         ⟨⟨2024, 1, 1⟩, ⟨some 1, none, none, none, none, none, none, none⟩, "B", 1⟩]).filter
        (fun r => r.date == ⟨2024, 1, 1⟩)
      = [⟨⟨2024, 1, 1⟩, ⟨some 1, some 2, none, none, none, none, none, none⟩, "A", 1⟩] :=
  (dedup_richer_record_wins
      [⟨⟨2024, 1, 1⟩, ⟨some 1, some 2, none, none, none, none, none, none⟩, "A", 1⟩,
       ⟨⟨2024, 1, 1⟩, ⟨some 1, none, none, none, none, none, none, none⟩, "B", 1⟩]
      ⟨2024, 1, 1⟩
      ⟨⟨2024, 1, 1⟩, ⟨some 1, some 2, none, none, none, none, none, none⟩, "A", 1⟩
      ⟨⟨2024, 1, 1⟩, ⟨some 1, none, none, none, none, none, none, none⟩, "B", 1⟩
      (by decide)).1 (by decide)

/- The scripts dedup keeps one row per key. -/

theorem firstMaxByScore_mem : ∀ (l : List SRec) (r : SRec),
    firstMaxByScore l = some r → r ∈ l
  | [], r, h => by simp [firstMaxByScore] at h
  | x :: rest, r, h => by
    rw [firstMaxByScore] at h
    revert h
    cases hr : firstMaxByScore rest with
    | none =>
      intro h
      have h2 : some x = some r := h
      injection h2 with h3
      exact h3 ▸ List.mem_cons_self _ _
    | some b =>
      intro h
      have h2 : (if score x < score b then some b else some x) = some r := h
      by_cases hs : score x < score b
      · rw [if_pos hs] at h2
        injection h2 with h3
        exact List.mem_cons_of_mem _ (h3 ▸ firstMaxByScore_mem rest b hr)
      · rw [if_neg hs] at h2
        injection h2 with h3
        exact h3 ▸ List.mem_cons_self _ _

theorem filterMap_keys_nodup (f : Nat → Option SRec) :
    ∀ (ks : List Nat), ks.Nodup → (∀ k r, f k = some r → sRecKey r = k) →
    ((ks.filterMap f).map (fun r => sRecKey r)).Nodup
  | [], _, _ => by simp
  | k :: ks, hnd, hf => by
    rw [List.filterMap_cons]
    rcases List.nodup_cons.mp hnd with ⟨hk, hnd2⟩
    cases hfk : f k with
    | none => exact filterMap_keys_nodup f ks hnd2 hf
    | some r =>
      rw [List.map_cons]
      refine List.nodup_cons.mpr ⟨?_, filterMap_keys_nodup f ks hnd2 hf⟩
      intro hmem
      rcases List.mem_map.mp hmem with ⟨r2, hr2, hkey⟩
      rcases List.mem_filterMap.mp hr2 with ⟨k2, hk2, hfk2⟩
      have e1 := hf k r hfk
      have e2 := hf k2 r2 hfk2
      have hkk : k = k2 := by
        rw [← e1, ← hkey, e2]
      exact hk (hkk ▸ hk2)

theorem remove_duplicate_dates_keys_nodup (rows : List SRec) :
    ((remove_duplicate_dates rows).map (fun r => sRecKey r)).Nodup := by
  refine filterMap_keys_nodup _ _ (List.nodup_dedup _) ?_
  intro k r hf
  have hmem := firstMaxByScore_mem _ r hf
  have hp := (List.mem_filter.mp hmem).2
  simpa using hp

/-- C2: both duplicate-removal implementations emit each calendar date at
most once: remove_duplicates (src) keyed on the Date/Time value, and the
groupby-based remove_duplicate_dates (scripts and stand-alone script)
keyed on the parsed timestamp. -/
theorem reconciled_dates_unique (df rows : List SRec) :
    ((remove_duplicates df).map (fun r => r.date)).Nodup ∧
    ((remove_duplicate_dates rows).map (fun r => sRecKey r)).Nodup :=
  ⟨remove_duplicates_dates_nodup df, remove_duplicate_dates_keys_nodup rows⟩

/-- C3: the Row Reconciler is idempotent: reconciling its own output with
an empty incoming batch returns that output unchanged. -/
theorem reconcile_idempotent (existing incoming : List SRec) :
    reconcile (reconcile existing incoming) [] = reconcile existing incoming := by
  show remove_duplicates (reconcile existing incoming ++ []) = reconcile existing incoming
  rw [List.append_nil]
  exact remove_duplicates_idem (existing ++ incoming)

/- Scripts updater: freshness, range and malformed files. -/

theorem parseRows_isNone_of_mem : ∀ (l : List ERec) (e : ERec),
    e ∈ l → e.date = none → parseRows l = none
  | [], e, h, _ => absurd h (List.not_mem_nil e)
  | x :: xs, e, h, hd => by
    rw [parseRows]
    rcases List.mem_cons.mp h with rfl | hmem
    · rw [hd]
    · rw [parseRows_isNone_of_mem xs e hmem hd]
      cases hx : x.date <;> rfl

/-- C4: when the persisted file is nonempty, its dates parse, and its
maximum date is today or yesterday, update_csv_file issues no request,
writes nothing back, and reports the data as up to date. -/
theorem freshness_short_circuit (oracle : Params → List RRec) (today : Date)
    (path : String) (existing : List ERec) (srows : List SRec)
    (hne : existing ≠ []) (hparse : parseRows existing = some srows)
    (hmax : maxDateList (srows.map (fun r => r.date)) = today ∨
      dayOrdinal (maxDateList (srows.map (fun r => r.date))) + 1 = dayOrdinal today) :
    update_csv_file oracle today path existing = ⟨[], none, .upToDate⟩ := by
  have hcond : dayOrdinal today
      ≤ dayOrdinal (maxDateList (srows.map (fun r => r.date))) + 1 := by
    rcases hmax with he | he
    · rw [he]
      omega
    · omega
  simp only [update_csv_file, if_neg hne, hparse]
  simp only [updateBody]
  rw [if_pos hcond]

/-- Concrete instance of freshness_short_circuit: the maximum persisted
date 2024-05-01 is yesterday relative to 2024-05-02, so nothing is
fetched or written and the station reports up to date. -/
theorem freshness_short_circuit_witness :
    update_csv_file (fun _ => []) ⟨2024, 5, 2⟩ "p"
        [⟨some ⟨2024, 5, 1⟩, ⟨some 1, none, none, none, none, none, none, none⟩, "A", 1⟩]
      = ⟨[], none, .upToDate⟩ :=
  freshness_short_circuit (fun _ => []) ⟨2024, 5, 2⟩ "p"
    [⟨some ⟨2024, 5, 1⟩, ⟨some 1, none, none, none, none, none, none, none⟩, "A", 1⟩]
    [⟨⟨2024, 5, 1⟩, ⟨some 1, none, none, none, none, none, none, none⟩, "A", 1⟩]
    (by decide) rfl (Or.inr (by decide))

/-- C5: from a persisted maximum date of 2024-03-15 and a current date of
2024-05-02, the computed fetch range is exactly March, April and May of
2024 (months_to_fetch is called with the year and month of those two
dates at lines 166-181). -/
theorem fetch_range_2024_03_to_05 :
    months_to_fetch 2024 3 2024 5 = [(2024, 3), (2024, 4), (2024, 5)] := by
  decide

/-- C9 counterexample: a station of the inventory-driven updater whose
persisted file cannot be read (the except at lines 118-119) does not
abort: with first_year = last_year = 2024 and current date 2024-05-02 it
refetches the full range (five monthly requests) and rewrites the file. -/
theorem src_malformed_file_refetches :
    (src_station_update
        (fun _ => [⟨some ⟨2024, 1, 5⟩, ⟨some 1, none, none, none, none, none, none, none⟩⟩])
        ⟨2024, 5, 2⟩ 2024 2024 7 "L" none).requests.length = 5 ∧
    (src_station_update
        (fun _ => [⟨some ⟨2024, 1, 5⟩, ⟨some 1, none, none, none, none, none, none, none⟩⟩])
        ⟨2024, 5, 2⟩ 2024 2024 7 "L" none).written.isSome = true := by
  constructor
  · decide
  · decide

/-- C9 amended: in the scripts updater a file with an unparsable date
aborts that update with an error naming the file, no request and no
write, and the batch processes every other file exactly as it would
alone.  (The inventory-driven src updater instead falls back to a full
refetch and rewrite, per src_malformed_file_refetches.) -/
theorem scripts_malformed_file_aborts (oracle : Params → List RRec) (today : Date)
    (path : String) (existing : List ERec) (e : ERec)
    (pre post : List (String × List ERec))
    (hne : existing ≠ []) (hmem : e ∈ existing) (hbad : e.date = none) :
    update_csv_file oracle today path existing = ⟨[], none, .errorMalformed path⟩ ∧
    batch_update oracle today (pre ++ (path, existing) :: post)
      = batch_update oracle today pre
          ++ update_csv_file oracle today path existing :: batch_update oracle today post := by
  constructor
  · simp only [update_csv_file, if_neg hne,
      parseRows_isNone_of_mem existing e hmem hbad]
  · simp only [batch_update, List.map_append, List.map_cons]

/-- Concrete instance of scripts_malformed_file_aborts: a one-row file
whose date cell does not parse yields the per-file error and no fetch or
write. -/
theorem scripts_malformed_file_aborts_witness :
    update_csv_file (fun _ => []) ⟨2024, 5, 2⟩ "climate_data/NL/x.csv"
        [⟨none, emptyMeas, "A", 1⟩]
      = ⟨[], none, .errorMalformed "climate_data/NL/x.csv"⟩ :=
  (scripts_malformed_file_aborts (fun _ => []) ⟨2024, 5, 2⟩ "climate_data/NL/x.csv"
      [⟨none, emptyMeas, "A", 1⟩] ⟨none, emptyMeas, "A", 1⟩ [] []
      (by decide) (by decide) rfl).1

/- Month Fetcher: request pattern of fetch_daily_data / fetch_daily_csv. -/

theorem takeWhile_eq_self_of_all {α : Type} (p : α → Bool) : ∀ (l : List α),
    (∀ a ∈ l, p a = true) → l.takeWhile p = l
  | [], _ => rfl
  | x :: xs, h => by
    rw [List.takeWhile_cons, if_pos (h x (List.mem_cons_self x xs))]
    exact congrArg _ (takeWhile_eq_self_of_all p xs
      (fun a ha => h a (List.mem_cons_of_mem x ha)))

theorem takeWhile_not_lt_range' : ∀ (n s M : Nat),
    (List.range' s n).takeWhile (fun mo => !decide (M < mo))
      = List.range' s (min n (M + 1 - s))
  | 0, s, M => by simp
  | n + 1, s, M => by
    rw [List.range'_succ, List.takeWhile_cons]
    by_cases h : s ≤ M
    · rw [if_pos (by simp [Nat.not_lt.mpr h]), takeWhile_not_lt_range' n (s + 1) M]
      have hmin : min (n + 1) (M + 1 - s) = (min n (M + 1 - (s + 1))) + 1 := by omega
      rw [hmin, List.range'_succ]
    · rw [if_neg (by simp [Nat.lt_of_not_le h])]
      have hmin : min (n + 1) (M + 1 - s) = 0 := by omega
      rw [hmin]
      rfl

theorem monthsUpTo_eq (year : Nat) (today : Date) :
    monthsUpTo year today
      = List.range' 1 (if year = today.y then min 11 today.m else 11) := by
  rw [monthsUpTo]
  by_cases h : year = today.y
  · rw [if_pos h]
    have hf : (fun mo => !(year == today.y && decide (today.m < mo)))
        = (fun mo => !decide (today.m < mo)) := by
      funext mo
      simp [h]
    rw [hf, takeWhile_not_lt_range' 11 1 today.m]
    have hmm : today.m + 1 - 1 = today.m := by omega
    rw [hmm]
  · rw [if_neg h]
    apply takeWhile_eq_self_of_all
    intro a _
    simp [h]

/-- C6 counterexample: one call of fetch_daily_data for (2023, month 4)
on 2024-05-02 issues eleven outbound requests, not one. -/
theorem fetch_month_single_request_refuted :
    (fetch_daily_data (fun _ => []) 7 "S" 2023 4 ⟨2024, 5, 2⟩).requests.length = 11 ∧
    (11 : Nat) ≠ 1 := by
  constructor
  · decide
  · decide

/-- C6 amended: fetch_daily_data ignores its month argument; it issues
one request per month from January through November of the given year
(stopping at the current month in the current year), each carrying the
station id, the year, that month and timeframe 2, and every returned
record falls within the given year and one of those months.
fetch_daily_csv does issue exactly the single request with the given
station id, year, month and timeframe 2, but it does not restrict the
returned records to the requested month, as the final conjunct shows on
a response dated 2023-07 to a request for 2024-04. -/
theorem fetch_month_actual_requests (oracle : Params → List RRec)
    (rawOracle : Params → List RawRec) (sid : Int) (name : String)
    (year m1 m2 : Nat) (today : Date) :
    fetch_daily_data oracle sid name year m1 today
      = fetch_daily_data oracle sid name year m2 today ∧
    (fetch_daily_data oracle sid name year m1 today).requests
      = (List.range' 1 (if year = today.y then min 11 today.m else 11)).map
          (fun mo => ⟨sid, year, mo, 2⟩) ∧
    (∀ r ∈ (fetch_daily_data oracle sid name year m1 today).records,
      r.date.y = year ∧ 1 ≤ r.date.m ∧ r.date.m ≤ 11 ∧
        (year = today.y → r.date.m ≤ today.m)) ∧
    (fetch_daily_csv rawOracle sid name year m1).requests = [⟨sid, year, m1, 2⟩] ∧
    ((fetch_daily_csv (fun _ => [⟨some ⟨2023, 7, 1⟩, emptyMeas⟩]) 7 "S" 2024 4).records.map
        (fun r => (r.date.y, r.date.m))) = [(2023, 7)] := by
  refine ⟨rfl, ?_, ?_, rfl, by decide⟩
  · show (monthsUpTo year today).map (fun mo => (⟨sid, year, mo, 2⟩ : Params)) = _
    rw [monthsUpTo_eq]
  · intro r hr
    have hr2 : r ∈ (monthsUpTo year today).flatMap (fun mo =>
        ((oracle ⟨sid, year, mo, 2⟩).filter
          (fun q => q.date.m == mo && q.date.y == year)).map
          (fun q => (⟨q.date, q.meas, name, sid⟩ : SRec))) := hr
    rcases List.mem_flatMap.mp hr2 with ⟨mo, hmo, hrm⟩
    rcases List.mem_map.mp hrm with ⟨q, hq, rfl⟩
    have hpq := (List.mem_filter.mp hq).2
    have hmq : q.date.m = mo ∧ q.date.y = year := by
      simpa using hpq
    rw [monthsUpTo_eq] at hmo
    rcases List.mem_range'.mp hmo with ⟨i, hi, hmi⟩
    rcases hmq with ⟨hm, hy2⟩
    refine ⟨hy2, ?_, ?_, ?_⟩
    · show 1 ≤ q.date.m
      rw [hm]
      omega
    · show q.date.m ≤ 11
      rw [hm]
      by_cases hy : year = today.y
      · rw [if_pos hy] at hi
        omega
      · rw [if_neg hy] at hi
        omega
    · intro hyy
      show q.date.m ≤ today.m
      rw [hm]
      rw [if_pos hyy] at hi
      omega

/-- Concrete instance of fetch_month_actual_requests: a record returned
by fetch_daily_data for year 2023 on 2024-05-02 lies in 2023 and in
months 1..11. -/
theorem fetch_month_actual_requests_witness :
    (⟨⟨2023, 2, 3⟩, emptyMeas, "S", 7⟩ : SRec).date.y = 2023 ∧
    1 ≤ (⟨⟨2023, 2, 3⟩, emptyMeas, "S", 7⟩ : SRec).date.m ∧
    (⟨⟨2023, 2, 3⟩, emptyMeas, "S", 7⟩ : SRec).date.m ≤ 11 ∧
    (2023 = (⟨2024, 5, 2⟩ : Date).y →
      (⟨⟨2023, 2, 3⟩, emptyMeas, "S", 7⟩ : SRec).date.m ≤ (⟨2024, 5, 2⟩ : Date).m) :=
  (fetch_month_actual_requests (fun _ => [⟨⟨2023, 2, 3⟩, emptyMeas⟩]) (fun _ => [])
      7 "S" 2023 4 9 ⟨2024, 5, 2⟩).2.2.1
    ⟨⟨2023, 2, 3⟩, emptyMeas, "S", 7⟩ (by decide)

/- Name Normalizer. -/

/-- C7 counterexample: the normalizer the code actually applies to both
the manifest labels and the inventory names is custom_title_case, and it
sends "St. John's" and "st johns" to different keys. -/
theorem normalizer_keys_differ :
    customTitleCase "St. John's" ≠ customTitleCase "st johns" := by
  decide

/-- C7 amended: under the implemented smart-title-case normalizer,
"St. John's" maps to itself (the letter after the apostrophe is left
lowercase) and "st johns" maps to "St Johns"; the two keys are distinct,
so the strip-and-lowercase equation of the claim does not hold for the
code. -/
theorem title_case_normalizer_values :
    customTitleCase "St. John's" = "St. John's" ∧
    customTitleCase "st johns" = "St Johns" := by
  constructor
  · decide
  · decide

/- Inventory row guards. -/

/-- C8 counterexample: an inventory row whose Station ID cell is missing
is read as NaN, str-converted to the nonempty string "nan", and therefore
passes the guard: with a matching label and first_year 2000, last_year
2010 the row is processed, not skipped. -/
theorem missing_station_id_not_skipped :
    processInventoryRow ["Foo"] (some "Foo") none 2000 2010 = .processed ∧
    RowAction.processed ≠ RowAction.skipped := by
  constructor
  · decide
  · decide

/-- C8 amended: a target-matching inventory row is skipped before any
directory creation or fetch exactly when its stripped station id is the
empty string or first_year exceeds last_year; a row whose station id cell
is missing becomes the string "nan" and is processed, not skipped. -/
theorem inventory_row_skip_rule (labelSet : List String)
    (nameCell idCell : Option String) (firstYear lastYear : Int)
    (hmem : customTitleCase (stripStr (strOfCell nameCell)) ∈ labelSet) :
    ((stripStr (strOfCell idCell) = "" ∨ firstYear > lastYear) →
      processInventoryRow labelSet nameCell idCell firstYear lastYear = .skipped) ∧
    (idCell = none → firstYear ≤ lastYear →
      processInventoryRow labelSet nameCell idCell firstYear lastYear = .processed) := by
  constructor
  · intro hcond
    simp only [processInventoryRow, if_pos hmem, if_pos hcond]
  · intro hnone hle
    subst hnone
    have hnot : ¬(stripStr (strOfCell (none : Option String)) = ""
        ∨ firstYear > lastYear) := by
      intro hor
      rcases hor with he | hgt
      · exact absurd he (by decide)
      · omega
    simp only [processInventoryRow, if_pos hmem, if_neg hnot]

/-- Concrete instance of inventory_row_skip_rule: a matching row with an
empty station id is skipped. -/
theorem inventory_row_skip_rule_witness :
    processInventoryRow ["Foo"] (some "Foo") (some "") 2000 2010 = .skipped :=
  (inventory_row_skip_rule ["Foo"] (some "Foo") (some "") 2000 2010 (by decide)).1
    (Or.inl (by decide))

/- Gust-direction backfill. -/

theorem setGust_length (rows : List GRec) (j : Nat) (v : Int) :
    (setGust rows j v).length = rows.length := by
  unfold setGust
  cases h : rows.get? j
  · rfl
  · exact List.length_set rows j _

theorem setGust_get?_eq (rows : List GRec) (j : Nat) (v : Int) (r : GRec)
    (h : rows.get? j = some r) :
    (setGust rows j v).get? j = some { r with gustDir := some v } := by
  unfold setGust
  rw [h, List.get?_set_eq, h]
  rfl

theorem setGust_get?_ne (rows : List GRec) (j n : Nat) (v : Int) (h : j ≠ n) :
    (setGust rows j v).get? n = rows.get? n := by
  unfold setGust
  cases hg : rows.get? j
  · rfl
  · exact List.get?_set_ne _ rows h

theorem findIdx?_spec {α : Type} (p : α → Bool) : ∀ (l : List α) (i j : Nat),
    List.findIdx? p l i = some j →
    i ≤ j ∧ ∃ x, l.get? (j - i) = some x ∧ p x = true
  | [], i, j, h => by
    rw [List.findIdx?_nil] at h
    exact absurd h (by simp)
  | x :: xs, i, j, h => by
    rw [List.findIdx?_cons] at h
    by_cases hx : p x = true
    · rw [if_pos hx] at h
      injection h with h2
      subst h2
      exact ⟨Nat.le_refl i, x, by simp, hx⟩
    · rw [if_neg hx] at h
      rcases findIdx?_spec p xs (i + 1) j h with ⟨hle, y, hy, hpy⟩
      refine ⟨by omega, y, ?_, hpy⟩
      have hji : j - i = (j - (i + 1)) + 1 := by omega
      rw [hji, List.get?_cons_succ]
      exact hy

theorem gust_nodup_pos_unique : ∀ (rows : List GRec),
    ((rows.filterMap (fun r => r.date)).Nodup) →
    ∀ (a b : Nat) (ra rb : GRec) (dt : Date),
      rows.get? a = some ra → rows.get? b = some rb →
      ra.date = some dt → rb.date = some dt → a = b
  | [], _, a, b, ra, rb, dt, ha, _, _, _ => by
    rw [List.get?_nil] at ha
    exact absurd ha (by simp)
  | x :: xs, hnd, a, b, ra, rb, dt, ha, hb, hda, hdb => by
    have hndtail : (xs.filterMap (fun r => r.date)).Nodup := by
      rw [List.filterMap_cons] at hnd
      cases hx : x.date
      · rw [hx] at hnd
        exact hnd
      · rw [hx] at hnd
        exact (List.nodup_cons.mp hnd).2
    cases a with
    | zero =>
      cases b with
      | zero => rfl
      | succ b2 =>
        exfalso
        rw [List.get?_cons_zero] at ha
        injection ha with ha2
        rw [List.get?_cons_succ] at hb
        have hxdt : x.date = some dt := by
          rw [ha2]
          exact hda
        have hdtmem : dt ∈ xs.filterMap (fun r => r.date) :=
          List.mem_filterMap.mpr ⟨rb, List.get?_mem hb, hdb⟩
        rw [List.filterMap_cons, hxdt] at hnd
        exact (List.nodup_cons.mp hnd).1 hdtmem
    | succ a2 =>
      cases b with
      | zero =>
        exfalso
        rw [List.get?_cons_zero] at hb
        injection hb with hb2
        rw [List.get?_cons_succ] at ha
        have hxdt : x.date = some dt := by
          rw [hb2]
          exact hdb
        have hdtmem : dt ∈ xs.filterMap (fun r => r.date) :=
          List.mem_filterMap.mpr ⟨ra, List.get?_mem ha, hda⟩
        rw [List.filterMap_cons, hxdt] at hnd
        exact (List.nodup_cons.mp hnd).1 hdtmem
      | succ b2 =>
        rw [List.get?_cons_succ] at ha hb
        exact congrArg Nat.succ
          (gust_nodup_pos_unique xs hndtail a2 b2 ra rb dt ha hb hda hdb)

theorem backfillStep_preserves (oracle : GustOracle) (rows : List GRec)
    (hnd : (rows.filterMap (fun r => r.date)).Nodup)
    (df : List GRec) (s : GRec) (hsrow : s ∈ rows) (hsmiss : s.gustDir = none)
    (hlen : df.length = rows.length)
    (hinv : ∀ j u, rows.get? j = some u → ∃ w, df.get? j = some w ∧
      w.date = u.date ∧ w.stationId = u.stationId ∧
      (u.gustDir ≠ none → w.gustDir = u.gustDir) ∧
      (unfillable oracle u → w.gustDir = none)) :
    (backfillStep oracle df s).length = rows.length ∧
    (∀ j u, rows.get? j = some u → ∃ w, (backfillStep oracle df s).get? j = some w ∧
      w.date = u.date ∧ w.stationId = u.stationId ∧
      (u.gustDir ≠ none → w.gustDir = u.gustDir) ∧
      (unfillable oracle u → w.gustDir = none)) := by
  unfold backfillStep
  cases hd : s.date with
  | none => exact ⟨hlen, hinv⟩
  | some dt =>
    cases hsid : s.stationId with
    | none => exact ⟨hlen, hinv⟩
    | some sid =>
      dsimp only
      cases hor : oracle sid dt with
      | none => exact ⟨hlen, hinv⟩
      | some v =>
        cases hfi : df.findIdx? (fun r => r.date == some dt) with
        | none => exact ⟨hlen, hinv⟩
        | some j =>
          rcases findIdx?_spec _ df 0 j hfi with ⟨_, wSt, hwSt, hpw⟩
          rw [Nat.sub_zero] at hwSt
          have hwdt : wSt.date = some dt := by
            simpa using hpw
          have hjlt : j < rows.length := by
            rw [← hlen]
            by_contra hge
            have hnone : df.get? j = none := List.get?_eq_none.mpr (by omega)
            rw [hnone] at hwSt
            exact absurd hwSt (by simp)
          obtain ⟨uSt, huSt⟩ : ∃ u, rows.get? j = some u := by
            rw [List.get?_eq_get hjlt]
            exact ⟨_, rfl⟩
          rcases hinv j uSt huSt with ⟨w2, hw2, hw2d, _, _, _⟩
          have hw2w : w2 = wSt := by
            rw [hw2] at hwSt
            injection hwSt
          have hudt : uSt.date = some dt := by
            rw [← hw2d, hw2w]
            exact hwdt
          obtain ⟨js, hjs⟩ := List.get?_of_mem hsrow
          have hjsj : js = j :=
            gust_nodup_pos_unique rows hnd js j s uSt dt hjs huSt hd hudt
          have hsu : s = uSt := by
            rw [hjsj] at hjs
            rw [hjs] at huSt
            injection huSt
          constructor
          · rw [setGust_length]
            exact hlen
          · intro j2 u hj2
            by_cases hjj : j = j2
            · subst hjj
              have huu : u = uSt := by
                rw [hj2] at huSt
                injection huSt
              refine ⟨{ wSt with gustDir := some v }, setGust_get?_eq df j v wSt hwSt,
                ?_, ?_, ?_, ?_⟩
              · show wSt.date = u.date
                rw [huu, ← hw2w, hw2d]
              · show wSt.stationId = u.stationId
                rcases hinv j u hj2 with ⟨w3, hw3, _, hw3s, _, _⟩
                have : w3 = wSt := by
                  rw [hw3] at hwSt
                  injection hwSt
                rw [← this, hw3s]
              · intro hne
                exfalso
                rw [huu, ← hsu] at hne
                exact hne hsmiss
              · intro hu
                exfalso
                have hun : oracle sid dt = none := by
                  have h2 := hu.2
                  rw [huu, ← hsu, hd, hsid] at h2
                  exact h2
                rw [hor] at hun
                exact absurd hun (by simp)
            · rcases hinv j2 u hj2 with ⟨w3, hw3, hw3d, hw3s, hw3g, hw3u⟩
              exact ⟨w3, by rw [setGust_get?_ne df j j2 v hjj]; exact hw3,
                hw3d, hw3s, hw3g, hw3u⟩

theorem backfill_fold_invariant (oracle : GustOracle) (rows : List GRec)
    (hnd : (rows.filterMap (fun r => r.date)).Nodup) :
    ∀ (snaps df : List GRec),
      (∀ s ∈ snaps, s ∈ rows ∧ s.gustDir = none) →
      df.length = rows.length →
      (∀ j u, rows.get? j = some u → ∃ w, df.get? j = some w ∧
        w.date = u.date ∧ w.stationId = u.stationId ∧
        (u.gustDir ≠ none → w.gustDir = u.gustDir) ∧
        (unfillable oracle u → w.gustDir = none)) →
      (snaps.foldl (backfillStep oracle) df).length = rows.length ∧
      (∀ j u, rows.get? j = some u →
        ∃ w, (snaps.foldl (backfillStep oracle) df).get? j = some w ∧
        w.date = u.date ∧ w.stationId = u.stationId ∧
        (u.gustDir ≠ none → w.gustDir = u.gustDir) ∧
        (unfillable oracle u → w.gustDir = none))
  | [], df, _, hlen, hinv => ⟨hlen, hinv⟩
  | s :: snaps, df, hsn, hlen, hinv => by
    rw [List.foldl_cons]
    have hs := hsn s (List.mem_cons_self _ _)
    obtain ⟨hlen2, hinv2⟩ :=
      backfillStep_preserves oracle rows hnd df s hs.1 hs.2 hlen hinv
    exact backfill_fold_invariant oracle rows hnd snaps (backfillStep oracle df s)
      (fun x hx => hsn x (List.mem_cons_of_mem _ hx)) hlen2 hinv2

theorem fill_preserves (oracle : GustOracle) (rows : List GRec) (i0 : Nat) (r0 : GRec)
    (hnd : (rows.filterMap (fun r => r.date)).Nodup)
    (h0 : rows.get? i0 = some r0) (h0m : r0.gustDir = none) :
    (fill_missing_gust_direction oracle rows).length = rows.length ∧
    (∀ j u, rows.get? j = some u → ∃ w,
      (fill_missing_gust_direction oracle rows).get? j = some w ∧
      w.date = u.date ∧ w.stationId = u.stationId ∧
      (∀ v, u.gustDir = some v → w.gustDir = some (v * 10)) ∧
      (unfillable oracle u → w.gustDir = none)) := by
  have hguard : rows.all (fun r => r.gustDir.isSome) = false := by
    cases hall : rows.all (fun r => r.gustDir.isSome)
    · rfl
    · exfalso
      have hsome := List.all_eq_true.mp hall r0 (List.get?_mem h0)
      rw [h0m] at hsome
      exact absurd hsome (by simp)
  have hfill : fill_missing_gust_direction oracle rows
      = scaleGust (backfillAll oracle rows) := by
    rw [fill_missing_gust_direction, hguard]
    rfl
  obtain ⟨hlen, hptw⟩ := backfill_fold_invariant oracle rows hnd
    (rows.filter (fun r => r.gustDir.isNone)) rows
    (fun s hs => ⟨(List.mem_filter.mp hs).1, by
      have := (List.mem_filter.mp hs).2
      simpa [Option.isNone_iff_eq_none] using this⟩)
    rfl
    (fun j u hj => ⟨u, hj, rfl, rfl, fun _ => rfl, fun hu => hu.1⟩)
  rw [hfill]
  unfold backfillAll
  constructor
  · rw [scaleGust, List.length_map]
    exact hlen
  · intro j u hj
    rcases hptw j u hj with ⟨w, hw, hwd, hws, hwg, hwu⟩
    refine ⟨{ w with gustDir := w.gustDir.map (fun x => x * 10) }, ?_, ?_, ?_, ?_, ?_⟩
    · rw [scaleGust, List.get?_map, hw]
      rfl
    · exact hwd
    · exact hws
    · intro v hv
      have hwv : w.gustDir = some v := by
        rw [hwg (by simp [hv]), hv]
      show w.gustDir.map (fun x => x * 10) = some (v * 10)
      rw [hwv]
      rfl
    · intro hu
      show w.gustDir.map (fun x => x * 10) = none
      rw [hwu hu]
      rfl

/-- C10 amended: over a file with the gust-direction column whose parsed
dates are distinct and which contains at least one row the backfill can
never fill (so every run still finds a missing value and reaches the
scaling), each originally present direction value v is saved as v * 10 by
one run, hence as v * 10 ^ n after n runs; runs that find no missing
value at all skip the scaling entirely (see the counterexample), which is
what restricts the claim to files with a permanently missing value. -/
theorem gust_backfill_scales_by_ten (oracle : GustOracle) (rows : List GRec)
    (n i i0 : Nat) (r0 : GRec) (v : Int)
    (hnd : (rows.filterMap (fun r => r.date)).Nodup)
    (h0 : rows.get? i0 = some r0) (h0m : r0.gustDir = none)
    (h0u : unfillable oracle r0)
    (hi : ∃ ri, rows.get? i = some ri ∧ ri.gustDir = some v) :
    ∃ rn, ((fill_missing_gust_direction oracle)^[n] rows).get? i = some rn ∧
      rn.gustDir = some (v * 10 ^ n) := by
  induction n generalizing rows r0 v with
  | zero =>
    rcases hi with ⟨ri, hri, hgv⟩
    refine ⟨ri, by simpa using hri, ?_⟩
    rw [hgv]
    simp
  | succ n ih =>
    obtain ⟨hlen, hptw⟩ := fill_preserves oracle rows i0 r0 hnd h0 h0m
    have hmapeq : (fill_missing_gust_direction oracle rows).map (fun r => r.date)
        = rows.map (fun r => r.date) := by
      apply List.ext_get?
      intro k
      rw [List.get?_map, List.get?_map]
      cases hk : rows.get? k with
      | none =>
        have hk2 : (fill_missing_gust_direction oracle rows).get? k = none := by
          rw [List.get?_eq_none] at hk ⊢
          omega
        rw [hk2]
      | some u =>
        rcases hptw k u hk with ⟨w, hw, hwd, _, _, _⟩
        rw [hw]
        simp [hwd]
    have hnd1 : ((fill_missing_gust_direction oracle rows).filterMap
        (fun r => r.date)).Nodup := by
      have e1 : (fill_missing_gust_direction oracle rows).filterMap (fun r => r.date)
          = ((fill_missing_gust_direction oracle rows).map (fun r => r.date)).filterMap id := by
        rw [List.filterMap_map]
        rfl
      have e2 : rows.filterMap (fun r => r.date)
          = (rows.map (fun r => r.date)).filterMap id := by
        rw [List.filterMap_map]
        rfl
      rw [e1, hmapeq, ← e2]
      exact hnd
    rcases hptw i0 r0 h0 with ⟨w0, hw0, hw0d, hw0s, _, hw0u⟩
    have hw0m : w0.gustDir = none := hw0u h0u
    have hw0un : unfillable oracle w0 := by
      rcases h0u with ⟨_, hmatch⟩
      refine ⟨hw0m, ?_⟩
      rw [hw0d, hw0s]
      exact hmatch
    have hi1 : ∃ ri1, (fill_missing_gust_direction oracle rows).get? i = some ri1 ∧
        ri1.gustDir = some (v * 10) := by
      rcases hi with ⟨ri, hri, hgv⟩
      rcases hptw i ri hri with ⟨w, hw, _, _, hws10, _⟩
      exact ⟨w, hw, hws10 v hgv⟩
    rcases ih (fill_missing_gust_direction oracle rows) w0 (v * 10)
      hnd1 hw0 hw0m hw0un hi1 with ⟨rn, hrn, hrng⟩
    refine ⟨rn, ?_, ?_⟩
    · rw [Function.iterate_succ_apply]
      exact hrn
    · rw [hrng]
      congr 1
      ring

/-- Concrete instance of gust_backfill_scales_by_ten: a two-row file with
one permanently missing direction and one present value 7; after two runs
the present value reads 700. -/
theorem gust_backfill_scales_by_ten_witness :
    ∃ rn, ((fill_missing_gust_direction (fun _ _ => none))^[2]
        [⟨some ⟨2024, 1, 1⟩, some 1, none⟩, ⟨some ⟨2024, 1, 2⟩, some 1, some 7⟩]).get? 1
      = some rn ∧ rn.gustDir = some ((7 : Int) * 10 ^ 2) :=
  gust_backfill_scales_by_ten (fun _ _ => none)
    [⟨some ⟨2024, 1, 1⟩, some 1, none⟩, ⟨some ⟨2024, 1, 2⟩, some 1, some 7⟩]
    2 1 0 ⟨some ⟨2024, 1, 1⟩, some 1, none⟩ 7
    (by decide) rfl rfl ⟨rfl, rfl⟩
    ⟨⟨some ⟨2024, 1, 2⟩, some 1, some 7⟩, rfl, rfl⟩

/-- C10 counterexample: a run of the backfill over a file that has the
gust-direction column but no missing value returns before the scaling
(the continue at lines 90-92), so the present value 7 stays 7 rather
than becoming 70. -/
theorem gust_scale_skipped_when_no_missing :
    fill_missing_gust_direction (fun _ _ => none)
        [⟨some ⟨2024, 1, 1⟩, some 1, some 7⟩]
      = [⟨some ⟨2024, 1, 1⟩, some 1, some 7⟩] ∧
    some (7 : Int) ≠ some ((7 : Int) * 10) := by
  constructor
  · decide
  · decide
